import Mathlib

/-!
Verification of the privacy-metric engine of `chapter3/De-identification.py`:
k-anonymity, l-diversity and t-closeness over a small tabular dataset, with
generalization functions (age banding, ZIP-prefix masking) and a violation
reporter.

Modelling conventions (shallow embedding):
* A cell value (`Val`) is an integer, a string, or null (pandas `NaN`/`None`).
* A row is a total map from column name to `Val` (absent columns read as null);
  a `DataFrame` is a list of rows.
* `df.groupby(qi_cols, dropna=False)` is modelled by collecting the distinct
  QI-tuples (`groupKeys`, in first-occurrence order) and filtering the rows of
  each key (`groupRows`).  pandas sorts group keys for display; no claim here
  depends on the iteration order of groups, so first-occurrence order is used.
* pandas raises `ValueError("No group keys passed!")` when the list of group
  columns is empty AND the frame is non-empty (`get_grouper` raises only when
  `len(obj)` is non-zero; on an empty frame it appends an empty dummy grouping
  instead, so the calculators return their degenerate values).  The metric
  entry points return `Except String _` reflecting exactly that guard.
* `Series.nunique()` counts distinct non-null values (pandas default
  `dropna=True`), while `value_counts(dropna=False)` keeps nulls; both are
  modelled exactly that way (`nunique`, `distribution`).
* Real arithmetic (frequencies, total variation distance) is modelled over ℚ;
  the Python floats carry the same values up to rounding.
-/

attribute [local semireducible] Rat.mul Rat.add Rat.sub Rat.inv Rat.ofScientific

/-- A scalar cell value: integer, string, or missing (`NaN`/`None`). -/
inductive Val where
  | vInt (i : Int)
  | vStr (s : String)
  | vNull
  deriving DecidableEq, Repr

/-- A row: total map from column name to value (absent columns read as null). -/
abbrev Row : Type := String → Val

/-- A dataframe: finite ordered sequence of rows. -/
abbrev DataFrame : Type := List Row

deriving instance DecidableEq for Except

/-- Rows of the reference dataset `data_raw` (columns Age, ZIP, Gender, Diagnosis). -/
def mkRow (age : Int) (zip gender diag : String) : Row := fun c =>
  if c = "Age" then Val.vInt age
  else if c = "ZIP" then Val.vStr zip
  else if c = "Gender" then Val.vStr gender
  else if c = "Diagnosis" then Val.vStr diag
  else Val.vNull

/-- The 6-record reference dataset `data_raw` from the source. -/
def data_raw : DataFrame :=
  [ mkRow 28 "35294" "F" "Asthma"
  , mkRow 29 "35294" "M" "Diabetes"
  , mkRow 29 "35295" "F" "Asthma"
  , mkRow 40 "35294" "M" "Cancer"
  , mkRow 40 "35295" "F" "Cancer"
  , mkRow 41 "35295" "M" "Diabetes" ]

/-- The sensitive attribute `SA_COL = 'Diagnosis'`. -/
def SA_COL : String := "Diagnosis"

/-- `band_age`: `lower = (age // 10) * 10; upper = lower + 9; f"{lower}-{upper}"`.
Python `//` is floor division, i.e. `Int.fdiv`. -/
def band_age (age : Int) : String :=
  toString (Int.fdiv age 10 * 10) ++ "-" ++ toString (Int.fdiv age 10 * 10 + 9)

/-- Python `str()` on the values that occur in this system. -/
def pyStr : Val → String
  | Val.vInt i => toString i
  | Val.vStr s => s
  | Val.vNull => "None"

/-- `zip3_prefix`: `z = str(z); return (z[:3] + "**") if len(z) >= 3 else z + "**"`.
Note the unconditional `str()` coercion: the function is total on values. -/
def zip3_prefix (v : Val) : String :=
  let z := pyStr v
  if z.length ≥ 3 then (z.toList.take 3).asString ++ "**" else z ++ "**"

/-- Dynamic (Python) behaviour of `band_age` on an arbitrary value: `age // 10`
raises `TypeError` unless the argument is numeric. -/
def band_age_py : Val → Except String String
  | Val.vInt i => Except.ok (band_age i)
  | _ => Except.error "TypeError"

/-- `data_B[name] = data_B[col].apply(f)`: add (or overwrite) a derived column. -/
def addCol (df : DataFrame) (name : String) (f : Row → Val) : DataFrame :=
  df.map (fun r => fun c => if c = name then f r else r c)

/-- `data_B`: `data_raw` with derived columns `AgeBand` and `ZIP3`.
The `Age` column of the reference data is all-integer, so the fallback branch
of the `AgeBand` matcher is unreachable (Python would raise `TypeError`). -/
def data_B : DataFrame :=
  addCol
    (addCol data_raw "AgeBand" (fun r =>
      match r "Age" with
      | Val.vInt i => Val.vStr (band_age i)
      | v => v))
    "ZIP3" (fun r => Val.vStr ( zip3_prefix (r "ZIP")))

/-- The QI tuple of a row: values of the QI columns, in column order. -/
def rowKey (qi : List String) (r : Row) : List Val := qi.map r

/-- Distinct group keys of `df.groupby(qi, dropna=False)`, in first-occurrence
order (null QI values are ordinary key components). -/
def groupKeys (df : DataFrame) (qi : List String) : List (List Val) :=
  (df.map (rowKey qi)).dedup

/-- The equivalence class (group) of a key: the rows whose QI tuple equals it. -/
def groupRows (df : DataFrame) (qi : List String) (k : List Val) : DataFrame :=
  df.filter (fun r => decide (rowKey qi r = k))

/-- `sizes.min()` guarded by `if len(sizes) > 0 else 0`. -/
def minOrZero : List Nat → Nat
  | [] => 0
  | x :: xs => xs.foldl Nat.min x

/-- `Series.nunique()`: number of distinct non-null values (pandas drops NaN). -/
def nunique (xs : List Val) : Nat :=
  ((xs.filter (fun v => decide (v ≠ Val.vNull))).dedup).length

/-- The value of k-anonymity: smallest group size (0 when there are no groups). -/
def kAnonVal (df : DataFrame) (qi : List String) : Nat :=
  minOrZero ((groupKeys df qi).map (fun k => (groupRows df qi k).length))

/-- `k_anonymity_pandas(df, qi_cols)`.  pandas raises
`ValueError("No group keys passed!")` when `qi_cols` is empty and the frame is
non-empty (`if len(groupings) == 0 and len(obj)` in `get_grouper`); on an
empty frame an empty dummy grouping is used and the guarded `min` yields 0. -/
def k_anonymity_pandas (df : DataFrame) (qi : List String) : Except String Nat :=
  if qi = [] ∧ df.length ≠ 0 then Except.error "No group keys passed!"
  else Except.ok (kAnonVal df qi)

/-- The value of l-diversity: minimum over groups of the number of distinct
(non-null) sensitive values (0 when there are no groups). -/
def lDivVal (df : DataFrame) (qi : List String) (sa : String) : Nat :=
  minOrZero ((groupKeys df qi).map
    (fun k => nunique ((groupRows df qi k).map (fun r => r sa))))

/-- `l_diversity_count(df, qi_cols, sa_col)`.  Same groupby guard as
`k_anonymity_pandas`: the error only arises on a non-empty frame. -/
def l_diversity_count (df : DataFrame) (qi : List String) (sa : String) :
    Except String Nat :=
  if qi = [] ∧ df.length ≠ 0 then Except.error "No group keys passed!"
  else Except.ok (lDivVal df qi sa)

/-- `distribution(series)`: normalized frequency map from
`value_counts(dropna=False)` (nulls are kept as keys).  Returned as an
association list keyed by the distinct values of the series; empty input
yields the empty mapping. -/
def distribution (xs : List Val) : List (Val × ℚ) :=
  xs.dedup.map (fun v => (v, (xs.count v : ℚ) / (xs.length : ℚ)))

/-- `p.get(k, 0.0)` on an association-list dictionary. -/
def dictGet : List (Val × ℚ) → Val → ℚ
  | [], _ => 0
  | e :: rest, k => if e.1 = k then e.2 else dictGet rest k

/-- The keys of a dictionary. -/
def dictKeys (d : List (Val × ℚ)) : List Val := d.map Prod.fst

/-- `set(p.keys()).union(q.keys())`, as a duplicate-free list. -/
def unionKeys (p q : List (Val × ℚ)) : List Val :=
  (dictKeys p ++ dictKeys q).dedup

/-- Python `abs` on a rational (spelled out so that it evaluates by kernel
reduction; it agrees with `|·|`, see `pyAbs_eq_abs`). -/
def pyAbs (x : ℚ) : ℚ := if x < 0 then -x else x

/-- `total_variation_distance(p, q)`:
`0.5 * sum(abs(p.get(k, 0.0) - q.get(k, 0.0)) for k in keys)`. -/
def total_variation_distance (p q : List (Val × ℚ)) : ℚ :=
  (1 / 2) * ((unionKeys p q).map (fun k => pyAbs (dictGet p k - dictGet q k))).sum

/-- The loop `max_tv = 0.0; for ...: if tv > max_tv: max_tv = tv`. -/
def maxFold (l : List ℚ) : ℚ :=
  l.foldl (fun m tv => if m < tv then tv else m) 0

/-- The value of t-closeness: maximum over groups of the TV distance between
the group's SA distribution and the global SA distribution (0 with no groups). -/
def tCloseVal (df : DataFrame) (qi : List String) (sa : String) : ℚ :=
  maxFold ((groupKeys df qi).map (fun k =>
    total_variation_distance
      (distribution ((groupRows df qi k).map (fun r => r sa)))
      (distribution (df.map (fun r => r sa)))))

/-- `t_closeness_tv(df, qi_cols, sa_col)`.  Same groupby guard as
`k_anonymity_pandas`: the error only arises on a non-empty frame. -/
def t_closeness_tv (df : DataFrame) (qi : List String) (sa : String) :
    Except String ℚ :=
  if qi = [] ∧ df.length ≠ 0 then Except.error "No group keys passed!"
  else Except.ok (tCloseVal df qi sa)

/-- The structured content of the report printed by `report_violations`:
metric values, the violating groups for k and l (key plus offending size /
distinct-SA count), and the bare violation flag printed for t-closeness. -/
structure PrivacyReport where
  k_val : Nat
  k_violating : List (List Val × Nat)
  l_val : Nat
  l_violating : List (List Val × Nat)
  t_val : ℚ
  t_violated : Bool
  deriving DecidableEq, Repr

/-- `report_violations(df, qi_cols, sa_col, k_req, l_req, t_req)`.  The k and l
sections list the groups below the threshold (the source prints the filtered
`sizes` / `l_counts` frames only when the metric fails, but when it passes the
filtered frame is empty anyway); the t section prints only a message, so the
report carries only a flag for t. -/
def report_violations (df : DataFrame) (qi : List String) (sa : String)
    (k_req l_req : Nat) (t_req : ℚ) : Except String PrivacyReport :=
  if qi = [] ∧ df.length ≠ 0 then Except.error "No group keys passed!"
  else Except.ok
    { k_val := kAnonVal df qi
      k_violating :=
        ((groupKeys df qi).map (fun k => (k, (groupRows df qi k).length))).filter
          (fun e => decide (e.2 < k_req))
      l_val := lDivVal df qi sa
      l_violating :=
        ((groupKeys df qi).map
            (fun k => (k, nunique ((groupRows df qi k).map (fun r => r sa))))).filter
          (fun e => decide (e.2 < l_req))
      t_val := tCloseVal df qi sa
      t_violated := decide (t_req < tCloseVal df qi sa) }

/-- Formalisation of the output claimed by the spec for a failing t-closeness
check (not produced by the source): the list of groups whose local SA
distribution is farther than `t_req` from the global one, annotated with key
and TV distance. -/
def tViolatingClasses (df : DataFrame) (qi : List String) (sa : String)
    (t_req : ℚ) : List (List Val × ℚ) :=
  ((groupKeys df qi).map (fun k =>
    (k, total_variation_distance
      (distribution ((groupRows df qi k).map (fun r => r sa)))
      (distribution (df.map (fun r => r sa)))))).filter
    (fun e => decide (t_req < e.2))

/-- The QI set of Scenario C. -/
def QI_C : List String := ["AgeBand", "ZIP3"]

theorem foldl_min_le_init (xs : List Nat) (a : Nat) : xs.foldl Nat.min a ≤ a := by
  induction xs generalizing a with
  | nil => exact Nat.le_refl a
  | cons x xs ih => exact Nat.le_trans (ih (Nat.min a x)) (Nat.min_le_left a x)

theorem foldl_min_le_mem (xs : List Nat) (a b : Nat) (hb : b ∈ xs) :
    xs.foldl Nat.min a ≤ b := by
  induction xs generalizing a with
  | nil => cases hb
  | cons x xs ih =>
    rcases List.mem_cons.mp hb with h | h
    · subst h
      exact Nat.le_trans (foldl_min_le_init xs (Nat.min a b)) (Nat.min_le_right a b)
    · exact ih (Nat.min a x) h

theorem le_foldl_min (xs : List Nat) (a c : Nat) (ha : c ≤ a)
    (h : ∀ b ∈ xs, c ≤ b) : c ≤ xs.foldl Nat.min a := by
  induction xs generalizing a with
  | nil => exact ha
  | cons x xs ih =>
    exact ih (Nat.min a x) (Nat.le_min.mpr ⟨ha, h x (List.mem_cons_self x xs)⟩)
      (fun b hb => h b (List.mem_cons_of_mem x hb))

theorem foldl_min_mem (xs : List Nat) (a : Nat) : xs.foldl Nat.min a ∈ a :: xs := by
  induction xs generalizing a with
  | nil => exact List.mem_cons_self a []
  | cons x xs ih =>
    show List.foldl Nat.min (Nat.min a x) xs ∈ a :: x :: xs
    rcases List.mem_cons.mp (ih (Nat.min a x)) with h | h
    · rw [h]
      have h2 : Nat.min a x = a ∨ Nat.min a x = x := by
        show min a x = a ∨ min a x = x
        rw [Nat.min_def]
        split
        · exact Or.inl rfl
        · exact Or.inr rfl
      rcases h2 with h2 | h2
      · rw [h2]
        exact List.mem_cons_self a (x :: xs)
      · rw [h2]
        exact List.mem_cons_of_mem a (List.mem_cons_self x xs)
    · exact List.mem_cons_of_mem a (List.mem_cons_of_mem x h)

theorem minOrZero_le {l : List Nat} {a : Nat} (h : a ∈ l) : minOrZero l ≤ a := by
  cases l with
  | nil => cases h
  | cons x xs =>
    rcases List.mem_cons.mp h with h | h
    · exact h ▸ foldl_min_le_init xs x
    · exact foldl_min_le_mem xs x a h

theorem le_minOrZero {l : List Nat} {c : Nat} (hl : l ≠ []) (h : ∀ a ∈ l, c ≤ a) :
    c ≤ minOrZero l := by
  cases l with
  | nil => exact absurd rfl hl
  | cons x xs =>
    exact le_foldl_min xs x c (h x (List.mem_cons_self x xs))
      (fun b hb => h b (List.mem_cons_of_mem x hb))

theorem minOrZero_mem {l : List Nat} (hl : l ≠ []) : minOrZero l ∈ l := by
  cases l with
  | nil => exact absurd rfl hl
  | cons x xs => exact foldl_min_mem xs x

/-- A value below every element of a non-empty list bounds its minimum, and
conversely. -/
theorem le_minOrZero_iff {l : List Nat} {c : Nat} (hl : l ≠ []) :
    c ≤ minOrZero l ↔ ∀ a ∈ l, c ≤ a :=
  ⟨fun h _ ha => Nat.le_trans h (minOrZero_le ha), le_minOrZero hl⟩

theorem minOrZero_map_le {κ : Type} (keys : List κ) (f g : κ → Nat)
    (h : ∀ k ∈ keys, f k ≤ g k) : minOrZero (keys.map f) ≤ minOrZero (keys.map g) := by
  cases keys with
  | nil => exact Nat.le_refl 0
  | cons k ks =>
    have hne : (k :: ks).map g ≠ [] := by simp
    rcases List.mem_map.mp (minOrZero_mem hne) with ⟨k0, hk0, hval⟩
    calc minOrZero ((k :: ks).map f) ≤ f k0 := minOrZero_le (List.mem_map_of_mem f hk0)
      _ ≤ g k0 := h k0 hk0
      _ = minOrZero ((k :: ks).map g) := hval

theorem dedup_length_le_of_sublist {xs ys : List Val} (h : xs.Sublist ys) :
    xs.dedup.length ≤ ys.dedup.length := by
  rw [← List.card_toFinset, ← List.card_toFinset]
  refine Finset.card_le_card (fun a ha => ?_)
  rw [List.mem_toFinset] at ha ⊢
  exact h.subset ha

theorem nunique_le_of_sublist {xs ys : List Val} (h : xs.Sublist ys) :
    nunique xs ≤ nunique ys :=
  dedup_length_le_of_sublist (h.filter _)

theorem nunique_le_length (xs : List Val) : nunique xs ≤ xs.length :=
  Nat.le_trans (List.Sublist.length_le (List.dedup_sublist _))
    (List.Sublist.length_le (List.filter_sublist xs))

theorem mem_groupKeys {df : DataFrame} {qi : List String} {k : List Val} :
    k ∈ groupKeys df qi ↔ ∃ r ∈ df, rowKey qi r = k := by
  simp [groupKeys, List.mem_dedup]

theorem mem_groupRows {df : DataFrame} {qi : List String} {k : List Val} {r : Row} :
    r ∈ groupRows df qi k ↔ r ∈ df ∧ rowKey qi r = k := by
  simp [groupRows, List.mem_filter]

theorem groupRows_sublist (df : DataFrame) (qi : List String) (k : List Val) :
    (groupRows df qi k).Sublist df :=
  List.filter_sublist df

theorem groupKeys_ne_nil {df : DataFrame} {qi : List String} (hdf : df ≠ []) :
    groupKeys df qi ≠ [] := by
  intro h
  rw [groupKeys, List.dedup_eq_nil, List.map_eq_nil_iff] at h
  exact hdf h

/-- Partition invariant, core: group sizes sum to the dataset size. -/
theorem sum_group_sizes (df : DataFrame) (qi : List String) :
    ((groupKeys df qi).map (fun k => (groupRows df qi k).length)).sum = df.length := by
  rw [← List.length_map df (rowKey qi),
    ← List.sum_map_count_dedup_eq_length (df.map (rowKey qi))]
  refine congrArg List.sum (List.map_congr_left (fun k _ => ?_))
  rw [groupRows, ← List.countP_eq_length_filter,
    @List.count_eq_countP (List Val) instBEqOfDecidableEq, List.countP_map]
  refine List.countP_congr (fun r _ => ?_)
  simp [Function.comp]

/-- The empty record store. -/
def emptyDF : DataFrame := []

/-- C1: on the 6-record reference dataset with QI = {AgeBand, ZIP3}, the
pipeline produces exactly the two equivalence classes keyed
"20-29"/"352**" and "40-49"/"352**", each of size 3, giving k = 3, l = 2
and t-closeness exactly 1/3; the full report passes thresholds
(k ≥ 3, l ≥ 2, t ≤ 0.34) and the same run fails t ≤ 0.30. -/
theorem scenarioC_end_to_end :
    groupKeys data_B QI_C =
      [[Val.vStr "20-29", Val.vStr "352**"], [Val.vStr "40-49", Val.vStr "352**"]]
    ∧ (groupRows data_B QI_C [Val.vStr "20-29", Val.vStr "352**"]).length = 3
    ∧ (groupRows data_B QI_C [Val.vStr "40-49", Val.vStr "352**"]).length = 3
    ∧ k_anonymity_pandas data_B QI_C = Except.ok 3
    ∧ l_diversity_count data_B QI_C SA_COL = Except.ok 2
    ∧ t_closeness_tv data_B QI_C SA_COL = Except.ok (1 / 3)
    ∧ report_violations data_B QI_C SA_COL 3 2 (34 / 100) =
        Except.ok { k_val := 3, k_violating := [], l_val := 2, l_violating := []
                    t_val := 1 / 3, t_violated := false }
    ∧ report_violations data_B QI_C SA_COL 3 2 (30 / 100) =
        Except.ok { k_val := 3, k_violating := [], l_val := 2, l_violating := []
                    t_val := 1 / 3, t_violated := true } := by
  decide

/-- C3 (counterexample): contrary to the claimed `InvalidInput` failure,
`zip3_prefix` applied to a non-string value (the integer 1234) silently
coerces it with `str()` and returns a generalized result. -/
theorem zip3_coerces_int : zip3_prefix (Val.vInt 1234) = "123**" := by decide

/-- C3 (amended): `band_age` fails on non-numeric input, but with Python's
built-in `TypeError` (no `InvalidInput` error exists in the program), while
`zip3_prefix` never fails: it coerces any value `v` to the string `str(v)`
and masks that. -/
theorem generalization_error_behavior :
    (∀ s, band_age_py (Val.vStr s) = Except.error "TypeError")
    ∧ band_age_py Val.vNull = Except.error "TypeError"
    ∧ (∀ i, band_age_py (Val.vInt i) = Except.ok (band_age i))
    ∧ (∀ v, zip3_prefix v = zip3_prefix (Val.vStr (pyStr v))) := by
  refine ⟨fun s => rfl, rfl, fun i => rfl, fun v => ?_⟩
  cases v <;> rfl

/-- C4: for the empty dataset and any QI set — the empty QI set included —
partitioning yields zero equivalence classes and is not an error (pandas
raises "No group keys passed!" only when the frame is non-empty; on an empty
frame it installs an empty dummy grouping), and the three calculators return
the degenerate values k = 0, l = 0, t = 0. -/
theorem empty_dataset_degenerate (qi : List String) (sa : String) :
    groupKeys emptyDF qi = []
    ∧ k_anonymity_pandas emptyDF qi = Except.ok 0
    ∧ l_diversity_count emptyDF qi sa = Except.ok 0
    ∧ t_closeness_tv emptyDF qi sa = Except.ok 0 := by
  have hng : ¬ (qi = [] ∧ (emptyDF : DataFrame).length ≠ 0) := fun h => h.2 rfl
  refine ⟨rfl, ?_, ?_, ?_⟩
  · rw [k_anonymity_pandas, if_neg hng]
    rfl
  · rw [l_diversity_count, if_neg hng]
    rfl
  · rw [t_closeness_tv, if_neg hng]
    rfl

/-- `age // 10` (floor division) is the floor of the rational quotient. -/
theorem fdiv_ten_eq_floor (v : Int) : Int.fdiv v 10 = ⌊(v : ℚ) / 10⌋ := by
  calc Int.fdiv v 10 = v / 10 := Int.fdiv_eq_ediv v (by norm_num)
    _ = v / ((10 : ℕ) : Int) := by norm_num
    _ = ⌊(v : ℚ) / ((10 : ℕ) : ℚ)⌋ := (Rat.floor_intCast_div_natCast v 10).symm
    _ = ⌊(v : ℚ) / 10⌋ := by norm_num

/-- C8: for every integer `v`, `band_age v` is rendered as
"{lower}-{upper}" with `lower = ⌊v/10⌋·10` and `upper = lower + 9`, and the
band `[lower, lower + 9]` indeed contains `v` — negative `v` included, since
Python's `//` is floor division. -/
theorem band_age_floor_band (v : Int) :
    band_age v =
      toString (10 * ⌊(v : ℚ) / 10⌋) ++ "-" ++ toString (10 * ⌊(v : ℚ) / 10⌋ + 9)
    ∧ 10 * ⌊(v : ℚ) / 10⌋ ≤ v ∧ v < 10 * ⌊(v : ℚ) / 10⌋ + 10 := by
  refine ⟨?_, ?_, ?_⟩
  · unfold band_age
    rw [← fdiv_ten_eq_floor, mul_comm (Int.fdiv v 10) 10]
  · have h1 := Int.floor_le ((v : ℚ) / 10)
    have h2 : (10 : ℚ) * ⌊(v : ℚ) / 10⌋ ≤ v := by
      calc (10 : ℚ) * ⌊(v : ℚ) / 10⌋ ≤ 10 * ((v : ℚ) / 10) := by
            exact mul_le_mul_of_nonneg_left h1 (by norm_num)
        _ = v := by ring
    exact_mod_cast h2
  · have h1 := Int.lt_floor_add_one ((v : ℚ) / 10)
    have h2 : (v : ℚ) < 10 * ⌊(v : ℚ) / 10⌋ + 10 := by
      calc (v : ℚ) = 10 * ((v : ℚ) / 10) := by ring
        _ < 10 * (⌊(v : ℚ) / 10⌋ + 1) := by
            exact mul_lt_mul_of_pos_left h1 (by norm_num)
        _ = 10 * ⌊(v : ℚ) / 10⌋ + 10 := by ring
    exact_mod_cast h2

/-- C5: for every dataset and non-empty QI set, grouping on the QI tuple is a
partition: the group sizes sum to the dataset size (so no record — null QI
values included — is dropped), the group keys are pairwise distinct, every
record's key is a group key, a record belongs to a group exactly when that
group's key is the record's QI tuple, and groups with different keys are
disjoint. -/
theorem partition_invariant (df : DataFrame) (qi : List String) (_hqi : qi ≠ []) :
    ((groupKeys df qi).map (fun k => (groupRows df qi k).length)).sum = df.length
    ∧ (groupKeys df qi).Nodup
    ∧ (∀ r ∈ df, rowKey qi r ∈ groupKeys df qi
        ∧ ∀ k ∈ groupKeys df qi, (r ∈ groupRows df qi k ↔ k = rowKey qi r))
    ∧ (∀ k1 ∈ groupKeys df qi, ∀ k2 ∈ groupKeys df qi, k1 ≠ k2 →
        ∀ r ∈ groupRows df qi k1, r ∉ groupRows df qi k2) := by
  refine ⟨sum_group_sizes df qi, List.nodup_dedup _, fun r hr => ⟨?_, fun k _ => ?_⟩,
    fun k1 _ k2 _ hne r hr1 hr2 => ?_⟩
  · exact mem_groupKeys.mpr ⟨r, hr, rfl⟩
  · constructor
    · intro hmem
      exact ((mem_groupRows.mp hmem).2).symm
    · intro hkr
      exact mem_groupRows.mpr ⟨hr, hkr.symm⟩
  · exact hne (((mem_groupRows.mp hr1).2).symm.trans (mem_groupRows.mp hr2).2)

/-- Witness for `partition_invariant` on the reference dataset with QI = ["Age"]. -/
theorem partition_invariant_witness :
    (["Age"] : List String) ≠ []
    ∧ (((groupKeys data_raw ["Age"]).map
          (fun k => (groupRows data_raw ["Age"] k).length)).sum = data_raw.length
      ∧ (groupKeys data_raw ["Age"]).Nodup
      ∧ (∀ r ∈ data_raw, rowKey ["Age"] r ∈ groupKeys data_raw ["Age"]
          ∧ ∀ k ∈ groupKeys data_raw ["Age"],
              (r ∈ groupRows data_raw ["Age"] k ↔ k = rowKey ["Age"] r))
      ∧ (∀ k1 ∈ groupKeys data_raw ["Age"], ∀ k2 ∈ groupKeys data_raw ["Age"],
          k1 ≠ k2 → ∀ r ∈ groupRows data_raw ["Age"] k1,
            r ∉ groupRows data_raw ["Age"] k2)) :=
  ⟨by decide, partition_invariant data_raw ["Age"] (by decide)⟩

/-- C10: the computed l-diversity never exceeds the computed k-anonymity,
because a group cannot contain more distinct sensitive values than members. -/
theorem l_le_k_always (df : DataFrame) (qi : List String) (sa : String) :
    ∀ l k, l_diversity_count df qi sa = Except.ok l →
      k_anonymity_pandas df qi = Except.ok k → l ≤ k := by
  intro l k hl hk
  by_cases hguard : qi = [] ∧ df.length ≠ 0
  · rw [l_diversity_count, if_pos hguard] at hl
    cases hl
  · rw [l_diversity_count, if_neg hguard] at hl
    rw [k_anonymity_pandas, if_neg hguard] at hk
    rw [← Except.ok.inj hl, ← Except.ok.inj hk]
    refine minOrZero_map_le (groupKeys df qi) _ _ (fun g _ => ?_)
    calc nunique ((groupRows df qi g).map (fun r => r sa))
        ≤ ((groupRows df qi g).map (fun r => r sa)).length := nunique_le_length _
      _ = (groupRows df qi g).length := List.length_map _ _

/-- Witness for `l_le_k_always` on the reference dataset with QI = ["Age"]. -/
theorem l_le_k_always_witness :
    l_diversity_count data_raw ["Age"] SA_COL = Except.ok 1
    ∧ k_anonymity_pandas data_raw ["Age"] = Except.ok 1
    ∧ (1 : Nat) ≤ 1 :=
  ⟨by decide, by decide, l_le_k_always data_raw ["Age"] SA_COL 1 1 (by decide) (by decide)⟩

/-- A single-record dataset whose sensitive value is null. -/
def rowNullSA : Row := fun c => if c = "G" then Val.vStr "a" else Val.vNull

/-- One record, sensitive attribute "SA" missing. -/
def dfNullSA : DataFrame := [rowNullSA]

/-- C9 (counterexample): on a non-empty dataset in which one class's
sensitive values are all null, `nunique` (which drops nulls, pandas default)
makes l-diversity 0, not ≥ 1 as claimed. -/
theorem l_zero_on_null_sa :
    dfNullSA.length = 1 ∧ l_diversity_count dfNullSA ["G"] "SA" = Except.ok 0 := by
  decide

/-- C9 (amended): for a non-empty dataset and non-empty QI set, provided each
equivalence class contains at least one non-null sensitive value, the computed
l-diversity satisfies 1 ≤ l ≤ (number of distinct non-null SA values in the
whole dataset); a class of only-null SA values instead drives l to 0. -/
theorem l_bounds_amended (df : DataFrame) (qi : List String) (sa : String)
    (hdf : df ≠ []) (hqi : qi ≠ [])
    (hnn : ∀ k ∈ groupKeys df qi, ∃ r ∈ groupRows df qi k, r sa ≠ Val.vNull) :
    ∀ l, l_diversity_count df qi sa = Except.ok l →
      1 ≤ l ∧ l ≤ nunique (df.map (fun r => r sa)) := by
  intro l hl
  rw [l_diversity_count, if_neg (fun h => hqi h.1)] at hl
  rw [← Except.ok.inj hl]
  constructor
  · refine le_minOrZero ?_ ?_
    · intro h
      rw [List.map_eq_nil_iff] at h
      exact groupKeys_ne_nil hdf h
    · intro a ha
      rcases List.mem_map.mp ha with ⟨k, hk, hval⟩
      rcases hnn k hk with ⟨r, hr, hrnn⟩
      have h1 : r sa ∈ (groupRows df qi k).map (fun r' => r' sa) :=
        List.mem_map_of_mem _ hr
      have h2 : r sa ∈ ((groupRows df qi k).map (fun r' => r' sa)).filter
          (fun v => decide (v ≠ Val.vNull)) :=
        List.mem_filter.mpr ⟨h1, by simpa using hrnn⟩
      have h3 := List.mem_dedup.mpr h2
      rw [← hval]
      exact List.length_pos_of_mem h3
  · have hkeys : groupKeys df qi ≠ [] := groupKeys_ne_nil hdf
    obtain ⟨k0, hk0⟩ := List.exists_mem_of_ne_nil _ hkeys
    calc minOrZero ((groupKeys df qi).map
          (fun k => nunique ((groupRows df qi k).map (fun r => r sa))))
        ≤ nunique ((groupRows df qi k0).map (fun r => r sa)) :=
          minOrZero_le (List.mem_map_of_mem _ hk0)
      _ ≤ nunique (df.map (fun r => r sa)) :=
          nunique_le_of_sublist ((groupRows_sublist df qi k0).map _)

/-- Witness for `l_bounds_amended` on the reference dataset with QI = ["Age"]. -/
theorem l_bounds_amended_witness :
    data_raw ≠ []
    ∧ (["Age"] : List String) ≠ []
    ∧ (∀ k ∈ groupKeys data_raw ["Age"],
        ∃ r ∈ groupRows data_raw ["Age"] k, r SA_COL ≠ Val.vNull)
    ∧ (1 ≤ 1 ∧ 1 ≤ nunique (data_raw.map (fun r => r SA_COL))) :=
  ⟨List.cons_ne_nil _ _, by decide, by decide,
    l_bounds_amended data_raw ["Age"] SA_COL (List.cons_ne_nil _ _) (by decide)
      (by decide) 1 (by decide)⟩

/-- Replace a column by a function of its current value:
`df[c] = df[c].apply(f)` — this is how a generalization is coarsened (the new
generalized value is a function of the old one). -/
def mapCol (df : DataFrame) (c : String) (f : Val → Val) : DataFrame :=
  df.map (fun r => fun c2 => if c2 = c then f (r c2) else r c2)

/-- Per-key class sizes for an arbitrary key function (generic groupby core). -/
def classSizes {α κ : Type} [DecidableEq κ] (g : α → κ) (l : List α) : List Nat :=
  ((l.map g).dedup).map (fun k => (l.filter (fun a => decide (g a = k))).length)

/-- Per-key distinct-non-null-SA counts for an arbitrary key function. -/
def classDivs {α κ : Type} [DecidableEq κ] (g : α → κ) (sa : α → Val)
    (l : List α) : List Nat :=
  ((l.map g).dedup).map
    (fun k => nunique ((l.filter (fun a => decide (g a = k))).map sa))

/-- How a tuple key changes when column `c` is coarsened by `f`. -/
def coarsenKey (qi : List String) (c : String) (f : Val → Val)
    (ks : List Val) : List Val :=
  (qi.zip ks).map (fun p => if p.1 = c then f p.2 else p.2)

theorem rowKey_mapCol (qi : List String) (c : String) (f : Val → Val) (r : Row) :
    rowKey qi (fun c2 => if c2 = c then f (r c2) else r c2)
      = coarsenKey qi c f (rowKey qi r) := by
  induction qi with
  | nil => rfl
  | cons q qs ih =>
    show (if q = c then f (r q) else r q)
          :: rowKey qs (fun c2 => if c2 = c then f (r c2) else r c2)
        = (if q = c then f (r q) else r q) :: coarsenKey qs c f (rowKey qs r)
    rw [ih]

theorem filter_key_sublist {α κ κ2 : Type} [DecidableEq κ] [DecidableEq κ2]
    (l : List α) (g : α → κ) (F : κ → κ2) (k : κ) :
    (l.filter (fun a => decide (g a = k))).Sublist
      (l.filter (fun a => decide (F (g a) = F k))) := by
  refine List.monotone_filter_right l (fun a ha => ?_)
  rw [decide_eq_true_eq] at ha ⊢
  exact congrArg F ha

/-- Merging classes via a coarser key cannot shrink the minimum class size. -/
theorem minOrZero_classSizes_mono {α κ κ2 : Type} [DecidableEq κ] [DecidableEq κ2]
    (l : List α) (g : α → κ) (F : κ → κ2) :
    minOrZero (classSizes g l) ≤ minOrZero (classSizes (fun a => F (g a)) l) := by
  by_cases hl : l = []
  · subst hl
    exact Nat.le_refl 0
  · have hne2 : classSizes (fun a => F (g a)) l ≠ [] := by
      rw [classSizes]
      intro h
      rw [List.map_eq_nil_iff, List.dedup_eq_nil, List.map_eq_nil_iff] at h
      exact hl h
    obtain ⟨k2, hk2mem, hk2val⟩ := List.mem_map.mp (minOrZero_mem hne2)
    rcases List.mem_map.mp (List.mem_dedup.mp hk2mem) with ⟨a, ha, hak⟩
    have hk1 : g a ∈ (l.map g).dedup := List.mem_dedup.mpr (List.mem_map_of_mem g ha)
    calc minOrZero (classSizes g l)
        ≤ (l.filter (fun b => decide (g b = g a))).length :=
          minOrZero_le (List.mem_map_of_mem _ hk1)
      _ ≤ (l.filter (fun b => decide (F (g b) = F (g a)))).length :=
          (filter_key_sublist l g F (g a)).length_le
      _ = (l.filter (fun b => decide (F (g b) = k2))).length := by rw [hak]
      _ = minOrZero (classSizes (fun a => F (g a)) l) := hk2val

/-- Merging classes via a coarser key cannot shrink the minimum distinct-SA
count. -/
theorem minOrZero_classDivs_mono {α κ κ2 : Type} [DecidableEq κ] [DecidableEq κ2]
    (l : List α) (g : α → κ) (sa : α → Val) (F : κ → κ2) :
    minOrZero (classDivs g sa l) ≤ minOrZero (classDivs (fun a => F (g a)) sa l) := by
  by_cases hl : l = []
  · subst hl
    exact Nat.le_refl 0
  · have hne2 : classDivs (fun a => F (g a)) sa l ≠ [] := by
      rw [classDivs]
      intro h
      rw [List.map_eq_nil_iff, List.dedup_eq_nil, List.map_eq_nil_iff] at h
      exact hl h
    obtain ⟨k2, hk2mem, hk2val⟩ := List.mem_map.mp (minOrZero_mem hne2)
    rcases List.mem_map.mp (List.mem_dedup.mp hk2mem) with ⟨a, ha, hak⟩
    have hk1 : g a ∈ (l.map g).dedup := List.mem_dedup.mpr (List.mem_map_of_mem g ha)
    calc minOrZero (classDivs g sa l)
        ≤ nunique ((l.filter (fun b => decide (g b = g a))).map sa) :=
          minOrZero_le (List.mem_map_of_mem _ hk1)
      _ ≤ nunique ((l.filter (fun b => decide (F (g b) = F (g a)))).map sa) :=
          nunique_le_of_sublist ((filter_key_sublist l g F (g a)).map sa)
      _ = nunique ((l.filter (fun b => decide (F (g b) = k2))).map sa) := by rw [hak]
      _ = minOrZero (classDivs (fun a => F (g a)) sa l) := hk2val

theorem kAnonVal_mapCol (df : DataFrame) (qi : List String) (c : String)
    (f : Val → Val) :
    kAnonVal (mapCol df c f) qi
      = minOrZero (classSizes (fun r : Row => coarsenKey qi c f (rowKey qi r)) df) := by
  have hkeys : (mapCol df c f).map (rowKey qi)
      = df.map (fun r => coarsenKey qi c f (rowKey qi r)) := by
    rw [mapCol, List.map_map]
    exact List.map_congr_left (fun r _ => rowKey_mapCol qi c f r)
  have hlen : ∀ k, (groupRows (mapCol df c f) qi k).length
      = (df.filter (fun r => decide (coarsenKey qi c f (rowKey qi r) = k))).length := by
    intro k
    rw [groupRows, mapCol, ← List.countP_eq_length_filter, List.countP_map,
      ← List.countP_eq_length_filter]
    refine List.countP_congr (fun r _ => ?_)
    have h := rowKey_mapCol qi c f r
    simp [Function.comp, h]
  rw [kAnonVal, classSizes, groupKeys, hkeys]
  exact congrArg minOrZero (List.map_congr_left (fun k _ => hlen k))

theorem lDivVal_mapCol (df : DataFrame) (qi : List String) (sa c : String)
    (f : Val → Val) (hcs : c ≠ sa) :
    lDivVal (mapCol df c f) qi sa
      = minOrZero (classDivs (fun r : Row => coarsenKey qi c f (rowKey qi r))
          (fun r => r sa) df) := by
  have hkeys : (mapCol df c f).map (rowKey qi)
      = df.map (fun r => coarsenKey qi c f (rowKey qi r)) := by
    rw [mapCol, List.map_map]
    exact List.map_congr_left (fun r _ => rowKey_mapCol qi c f r)
  have hgrp : ∀ k, (groupRows (mapCol df c f) qi k).map (fun r => r sa)
      = (df.filter (fun r => decide (coarsenKey qi c f (rowKey qi r) = k))).map
          (fun r => r sa) := by
    intro k
    rw [groupRows, mapCol, List.filter_map, List.map_map]
    have hfil : df.filter
          ((fun r : Row => decide (rowKey qi r = k)) ∘
            (fun r : Row => fun c2 => if c2 = c then f (r c2) else r c2))
        = df.filter (fun r => decide (coarsenKey qi c f (rowKey qi r) = k)) := by
      refine List.filter_congr (fun r _ => ?_)
      have h := rowKey_mapCol qi c f r
      simp [Function.comp, h]
    rw [hfil]
    refine List.map_congr_left (fun r _ => ?_)
    show (if sa = c then f (r sa) else r sa) = r sa
    rw [if_neg (Ne.symm hcs)]
  rw [lDivVal, classDivs, groupKeys, hkeys]
  refine congrArg minOrZero (List.map_congr_left (fun k _ => ?_))
  rw [hgrp k]

/-- C6: replacing the generalization of one QI attribute `c` by a coarser one
(composing any `f` on top of the existing column values) while holding the
other QI attributes fixed never decreases k-anonymity and never decreases
l-diversity. -/
theorem coarsening_monotone (df : DataFrame) (qi : List String) (sa c : String)
    (f : Val → Val) (hcs : c ≠ sa) :
    (∀ k k2, k_anonymity_pandas df qi = Except.ok k →
      k_anonymity_pandas (mapCol df c f) qi = Except.ok k2 → k ≤ k2)
    ∧ (∀ l l2, l_diversity_count df qi sa = Except.ok l →
      l_diversity_count (mapCol df c f) qi sa = Except.ok l2 → l ≤ l2) := by
  have hglen : ∀ P : Prop, ¬ (P ∧ df.length ≠ 0) →
      ¬ (P ∧ (mapCol df c f).length ≠ 0) := by
    intro P h
    rw [mapCol, List.length_map]
    exact h
  constructor
  · intro k k2 hk hk2
    by_cases hguard : qi = [] ∧ df.length ≠ 0
    · rw [k_anonymity_pandas, if_pos hguard] at hk
      cases hk
    · rw [k_anonymity_pandas, if_neg hguard] at hk
      rw [k_anonymity_pandas, if_neg (hglen _ hguard)] at hk2
      rw [← Except.ok.inj hk, ← Except.ok.inj hk2, kAnonVal_mapCol]
      exact minOrZero_classSizes_mono df (rowKey qi) (coarsenKey qi c f)
  · intro l l2 hl hl2
    by_cases hguard : qi = [] ∧ df.length ≠ 0
    · rw [l_diversity_count, if_pos hguard] at hl
      cases hl
    · rw [l_diversity_count, if_neg hguard] at hl
      rw [l_diversity_count, if_neg (hglen _ hguard)] at hl2
      rw [← Except.ok.inj hl, ← Except.ok.inj hl2, lDivVal_mapCol df qi sa c f hcs]
      exact minOrZero_classDivs_mono df (rowKey qi) (fun r => r sa) (coarsenKey qi c f)

/-- Witness for `coarsening_monotone`: coarsening the "Age" column of the
reference dataset to a constant, with QI = ["Age"], SA = "Diagnosis". -/
theorem coarsening_monotone_witness :
    ("Age" : String) ≠ SA_COL
    ∧ ((∀ k k2, k_anonymity_pandas data_raw ["Age"] = Except.ok k →
        k_anonymity_pandas (mapCol data_raw "Age" (fun _ => Val.vNull)) ["Age"]
          = Except.ok k2 → k ≤ k2)
      ∧ (∀ l l2, l_diversity_count data_raw ["Age"] SA_COL = Except.ok l →
        l_diversity_count (mapCol data_raw "Age" (fun _ => Val.vNull)) ["Age"] SA_COL
          = Except.ok l2 → l ≤ l2)) :=
  ⟨by decide,
    coarsening_monotone data_raw ["Age"] SA_COL "Age" (fun _ => Val.vNull) (by decide)⟩

theorem pyAbs_eq_abs (x : ℚ) : pyAbs x = |x| := by
  rw [pyAbs]
  rcases lt_or_ge x 0 with h | h
  · rw [if_pos h, abs_of_neg h]
  · rw [if_neg (not_lt.mpr h), abs_of_nonneg h]

/-- A genuine finite distribution presented as a dictionary: no duplicate
keys, non-negative frequencies, total mass 1. -/
def IsDistrib (d : List (Val × ℚ)) : Prop :=
  (dictKeys d).Nodup ∧ (∀ e ∈ d, 0 ≤ e.2) ∧ (d.map Prod.snd).sum = 1

theorem dictGet_nonneg : ∀ (d : List (Val × ℚ)), (∀ e ∈ d, 0 ≤ e.2) →
    ∀ k, 0 ≤ dictGet d k := by
  intro d
  induction d with
  | nil => intro _ k; exact le_refl 0
  | cons e rest ih =>
    intro h k
    show 0 ≤ (if e.1 = k then e.2 else dictGet rest k)
    split
    · exact h e (List.mem_cons_self e rest)
    · exact ih (fun e2 he2 => h e2 (List.mem_cons_of_mem e he2)) k

theorem dictGet_eq_zero_of_not_mem : ∀ (d : List (Val × ℚ)) (k : Val),
    k ∉ dictKeys d → dictGet d k = 0 := by
  intro d
  induction d with
  | nil => intro k _; rfl
  | cons e rest ih =>
    intro k h
    rw [dictKeys, List.map_cons, List.mem_cons] at h
    push_neg at h
    show (if e.1 = k then e.2 else dictGet rest k) = 0
    rw [if_neg (fun he => h.1 he.symm)]
    exact ih k h.2

theorem sum_dictGet_toFinset : ∀ (d : List (Val × ℚ)), (dictKeys d).Nodup →
    Finset.sum (dictKeys d).toFinset (fun v => dictGet d v) = (d.map Prod.snd).sum := by
  intro d
  induction d with
  | nil => intro _; rfl
  | cons e rest ih =>
    intro hnd
    rw [dictKeys, List.map_cons] at hnd
    obtain ⟨hnotmem, hnd2⟩ := List.nodup_cons.mp hnd
    have hnm2 : e.1 ∉ dictKeys rest := hnotmem
    show Finset.sum (e.1 :: dictKeys rest).toFinset (fun v => dictGet (e :: rest) v)
        = ((e :: rest).map Prod.snd).sum
    rw [List.toFinset_cons,
      Finset.sum_insert (fun hmem => hnm2 (List.mem_toFinset.mp hmem))]
    have hhead : dictGet (e :: rest) e.1 = e.2 := by
      show (if e.1 = e.1 then e.2 else dictGet rest e.1) = e.2
      rw [if_pos rfl]
    have hcong : Finset.sum (dictKeys rest).toFinset (fun v => dictGet (e :: rest) v)
        = Finset.sum (dictKeys rest).toFinset (fun v => dictGet rest v) := by
      refine Finset.sum_congr rfl (fun v hv => ?_)
      have hv2 := List.mem_toFinset.mp hv
      show (if e.1 = v then e.2 else dictGet rest v) = dictGet rest v
      rw [if_neg (by intro he; refine hnm2 ?_; rw [he]; exact hv2)]
    rw [hhead, hcong, ih hnd2, List.map_cons, List.sum_cons]

theorem sum_dictGet_union_left (p q : List (Val × ℚ)) (hp : IsDistrib p) :
    Finset.sum ((dictKeys p).toFinset ∪ (dictKeys q).toFinset)
      (fun v => dictGet p v) = 1 := by
  rw [← Finset.sum_subset Finset.subset_union_left
    (fun x _ hx => dictGet_eq_zero_of_not_mem p x
      (fun hmem => hx (List.mem_toFinset.mpr hmem)))]
  rw [sum_dictGet_toFinset p hp.1, hp.2.2]

theorem sum_dictGet_union_right (p q : List (Val × ℚ)) (hq : IsDistrib q) :
    Finset.sum ((dictKeys p).toFinset ∪ (dictKeys q).toFinset)
      (fun v => dictGet q v) = 1 := by
  rw [← Finset.sum_subset Finset.subset_union_right
    (fun x _ hx => dictGet_eq_zero_of_not_mem q x
      (fun hmem => hx (List.mem_toFinset.mpr hmem)))]
  rw [sum_dictGet_toFinset q hq.1, hq.2.2]

theorem dedup_map_sum_eq_toFinset_sum (l : List Val) (f : Val → ℚ) :
    ((l.dedup).map f).sum = Finset.sum l.toFinset f := by
  rw [← List.sum_toFinset f (List.nodup_dedup l)]
  congr 1
  ext a
  simp [List.mem_toFinset, List.mem_dedup]

theorem tvd_eq_finset (p q : List (Val × ℚ)) :
    total_variation_distance p q
      = 1 / 2 * Finset.sum ((dictKeys p).toFinset ∪ (dictKeys q).toFinset)
          (fun v => |dictGet p v - dictGet q v|) := by
  rw [total_variation_distance, unionKeys, dedup_map_sum_eq_toFinset_sum,
    List.toFinset_append]
  congr 1
  refine Finset.sum_congr rfl (fun v _ => pyAbs_eq_abs _)

theorem tvd_nonneg (p q : List (Val × ℚ)) : 0 ≤ total_variation_distance p q := by
  rw [total_variation_distance]
  refine mul_nonneg (by norm_num) (List.sum_nonneg ?_)
  intro x hx
  rcases List.mem_map.mp hx with ⟨k, _, hk⟩
  rw [← hk, pyAbs_eq_abs]
  exact abs_nonneg _

theorem tvd_le_one (p q : List (Val × ℚ)) (hp : IsDistrib p) (hq : IsDistrib q) :
    total_variation_distance p q ≤ 1 := by
  rw [tvd_eq_finset]
  have hb : Finset.sum ((dictKeys p).toFinset ∪ (dictKeys q).toFinset)
        (fun v => |dictGet p v - dictGet q v|)
      ≤ Finset.sum ((dictKeys p).toFinset ∪ (dictKeys q).toFinset)
        (fun v => dictGet p v + dictGet q v) := by
    refine Finset.sum_le_sum (fun v _ => ?_)
    calc |dictGet p v - dictGet q v| = |dictGet p v + -(dictGet q v)| := by
          rw [sub_eq_add_neg]
      _ ≤ |dictGet p v| + |-(dictGet q v)| := abs_add _ _
      _ = dictGet p v + dictGet q v := by
          rw [abs_neg, abs_of_nonneg (dictGet_nonneg p hp.2.1 v),
            abs_of_nonneg (dictGet_nonneg q hq.2.1 v)]
  have hsplit : Finset.sum ((dictKeys p).toFinset ∪ (dictKeys q).toFinset)
        (fun v => dictGet p v + dictGet q v) = 1 + 1 := by
    rw [Finset.sum_add_distrib, sum_dictGet_union_left p q hp,
      sum_dictGet_union_right p q hq]
  calc 1 / 2 * Finset.sum ((dictKeys p).toFinset ∪ (dictKeys q).toFinset)
        (fun v => |dictGet p v - dictGet q v|)
      ≤ 1 / 2 * (1 + 1) := by
        refine mul_le_mul_of_nonneg_left ?_ (by norm_num)
        rw [← hsplit]
        exact hb
    _ = 1 := by norm_num

theorem tvd_eq_zero_iff (p q : List (Val × ℚ)) :
    total_variation_distance p q = 0 ↔
      ∀ v ∈ unionKeys p q, dictGet p v = dictGet q v := by
  have hUmem : ∀ v, v ∈ unionKeys p q ↔
      v ∈ (dictKeys p).toFinset ∪ (dictKeys q).toFinset := by
    intro v
    rw [unionKeys, List.mem_dedup, Finset.mem_union, List.mem_toFinset,
      List.mem_toFinset, List.mem_append]
  rw [tvd_eq_finset p q]
  constructor
  · intro h v hv
    have h2 : Finset.sum ((dictKeys p).toFinset ∪ (dictKeys q).toFinset)
        (fun v => |dictGet p v - dictGet q v|) = 0 := by
      rcases mul_eq_zero.mp h with h0 | h0
      · norm_num at h0
      · exact h0
    have h3 := (Finset.sum_eq_zero_iff_of_nonneg
      (fun i _ => abs_nonneg _)).mp h2 v ((hUmem v).mp hv)
    exact sub_eq_zero.mp (abs_eq_zero.mp h3)
  · intro h
    have h0 : Finset.sum ((dictKeys p).toFinset ∪ (dictKeys q).toFinset)
        (fun v => |dictGet p v - dictGet q v|) = 0 := by
      refine Finset.sum_eq_zero (fun v hv => ?_)
      rw [h v ((hUmem v).mpr hv), sub_self, abs_zero]
    rw [h0, mul_zero]

/-- C7: for ANY two finite frequency mappings `p`, `q` — distributions or not,
the empty mapping included — `total_variation_distance` is half the sum of
absolute frequency differences over the union of the two key sets with absent
keys read as 0, it is non-negative, and it is 0 exactly when the two mappings
agree on every key of the union; whenever `p` and `q` are genuine
distributions (duplicate-free keys, non-negative entries summing to 1) the
value moreover is at most 1, so it lies in [0, 1]. -/
theorem tvd_spec :
    (∀ p q : List (Val × ℚ),
      total_variation_distance p q
        = 1 / 2 * Finset.sum ((dictKeys p).toFinset ∪ (dictKeys q).toFinset)
            (fun v => |dictGet p v - dictGet q v|))
    ∧ (∀ p q : List (Val × ℚ), 0 ≤ total_variation_distance p q)
    ∧ (∀ p q : List (Val × ℚ), IsDistrib p → IsDistrib q →
        total_variation_distance p q ≤ 1)
    ∧ (∀ p q : List (Val × ℚ),
        total_variation_distance p q = 0 ↔
          ∀ v ∈ unionKeys p q, dictGet p v = dictGet q v) :=
  ⟨tvd_eq_finset, tvd_nonneg, tvd_le_one, tvd_eq_zero_iff⟩

/-- A two-point distribution. -/
def pDist : List (Val × ℚ) := [(Val.vStr "A", 1 / 2), (Val.vStr "B", 1 / 2)]

/-- A one-point distribution. -/
def qDist : List (Val × ℚ) := [(Val.vStr "A", 1)]

/-- Witness for `tvd_spec`: the distribution hypotheses of the upper-bound
conjunct discharged on two concrete distributions, and the unconditional
union formula instantiated at the empty frequency mapping (which is not a
distribution). -/
theorem tvd_spec_witness :
    IsDistrib pDist ∧ IsDistrib qDist
    ∧ total_variation_distance pDist qDist ≤ 1
    ∧ total_variation_distance ([] : List (Val × ℚ)) qDist
        = 1 / 2 * Finset.sum ((dictKeys ([] : List (Val × ℚ))).toFinset
            ∪ (dictKeys qDist).toFinset)
            (fun v => |dictGet ([] : List (Val × ℚ)) v - dictGet qDist v|) :=
  ⟨by unfold IsDistrib; decide, by unfold IsDistrib; decide,
    tvd_spec.2.2.1 pDist qDist (by unfold IsDistrib; decide)
      (by unfold IsDistrib; decide),
    tvd_spec.1 ([] : List (Val × ℚ)) qDist⟩

/-- C2 (amended): for non-empty data and QI, the report carries the three
metric values; the k (resp. l) metric passes exactly when every class meets
the threshold; the k and l violation lists contain exactly the classes whose
size (resp. distinct-SA count) is below threshold, annotated with key and
offending value; but for t-closeness the report carries only the scalar and a
violation flag `t_val > t_req` — no per-class list. -/
theorem reporter_report_fields (df : DataFrame) (qi : List String) (sa : String)
    (k_req l_req : Nat) (t_req : ℚ) (hqi : qi ≠ []) (hdf : df ≠ []) :
    ∀ rep, report_violations df qi sa k_req l_req t_req = Except.ok rep →
      rep.k_val = kAnonVal df qi
      ∧ ((k_req ≤ rep.k_val) ↔ ∀ k ∈ groupKeys df qi, k_req ≤ (groupRows df qi k).length)
      ∧ (∀ e, e ∈ rep.k_violating ↔
          e.1 ∈ groupKeys df qi ∧ e.2 = (groupRows df qi e.1).length ∧ e.2 < k_req)
      ∧ rep.l_val = lDivVal df qi sa
      ∧ ((l_req ≤ rep.l_val) ↔ ∀ k ∈ groupKeys df qi,
          l_req ≤ nunique ((groupRows df qi k).map (fun r => r sa)))
      ∧ (∀ e, e ∈ rep.l_violating ↔
          e.1 ∈ groupKeys df qi
            ∧ e.2 = nunique ((groupRows df qi e.1).map (fun r => r sa))
            ∧ e.2 < l_req)
      ∧ rep.t_val = tCloseVal df qi sa
      ∧ (rep.t_violated = true ↔ t_req < tCloseVal df qi sa) := by
  intro rep hrep
  rw [report_violations, if_neg (fun h => hqi h.1)] at hrep
  rw [← Except.ok.inj hrep]
  have hkeys_ne : groupKeys df qi ≠ [] := groupKeys_ne_nil hdf
  refine ⟨rfl, ?_, ?_, rfl, ?_, ?_, rfl, ?_⟩
  · have hne : (groupKeys df qi).map (fun k => (groupRows df qi k).length) ≠ [] := by
      rw [Ne, List.map_eq_nil_iff]
      exact hkeys_ne
    rw [show kAnonVal df qi
        = minOrZero ((groupKeys df qi).map (fun k => (groupRows df qi k).length)) from rfl,
      le_minOrZero_iff hne]
    constructor
    · intro h k hk
      exact h _ (List.mem_map_of_mem _ hk)
    · intro h a ha
      rcases List.mem_map.mp ha with ⟨k, hk, hval⟩
      rw [← hval]
      exact h k hk
  · intro e
    constructor
    · intro he
      have h1 := List.mem_filter.mp he
      have h2 := h1.2
      rw [decide_eq_true_eq] at h2
      rcases List.mem_map.mp h1.1 with ⟨k, hk, hval⟩
      subst hval
      exact ⟨hk, rfl, h2⟩
    · rintro ⟨h1, h2, h3⟩
      refine List.mem_filter.mpr ⟨?_, by rw [decide_eq_true_eq]; exact h3⟩
      refine List.mem_map.mpr ⟨e.1, h1, ?_⟩
      rw [← h2]
  · have hne : (groupKeys df qi).map
        (fun k => nunique ((groupRows df qi k).map (fun r => r sa))) ≠ [] := by
      rw [Ne, List.map_eq_nil_iff]
      exact hkeys_ne
    rw [show lDivVal df qi sa = minOrZero ((groupKeys df qi).map
        (fun k => nunique ((groupRows df qi k).map (fun r => r sa)))) from rfl,
      le_minOrZero_iff hne]
    constructor
    · intro h k hk
      exact h _ (List.mem_map_of_mem _ hk)
    · intro h a ha
      rcases List.mem_map.mp ha with ⟨k, hk, hval⟩
      rw [← hval]
      exact h k hk
  · intro e
    constructor
    · intro he
      have h1 := List.mem_filter.mp he
      have h2 := h1.2
      rw [decide_eq_true_eq] at h2
      rcases List.mem_map.mp h1.1 with ⟨k, hk, hval⟩
      subst hval
      exact ⟨hk, rfl, h2⟩
    · rintro ⟨h1, h2, h3⟩
      refine List.mem_filter.mpr ⟨?_, by rw [decide_eq_true_eq]; exact h3⟩
      refine List.mem_map.mpr ⟨e.1, h1, ?_⟩
      rw [← h2]
  · rw [decide_eq_true_eq]

/-- Witness for `reporter_report_fields` on the reference dataset: with
QI = ["Age"] the report is fully determined, and the theorem's field
characterisation holds of it. -/
theorem reporter_report_fields_witness :
    (["Age"] : List String) ≠ []
    ∧ data_raw ≠ []
    ∧ report_violations data_raw ["Age"] SA_COL 2 2 (1 / 5)
        = Except.ok { k_val := 1
                      k_violating := [([Val.vInt 28], 1), ([Val.vInt 41], 1)]
                      l_val := 1
                      l_violating := [([Val.vInt 28], 1), ([Val.vInt 40], 1), ([Val.vInt 41], 1)]
                      t_val := 2 / 3, t_violated := true }
    ∧ ∀ rep, report_violations data_raw ["Age"] SA_COL 2 2 (1 / 5) = Except.ok rep →
        rep.k_val = kAnonVal data_raw ["Age"]
        ∧ ((2 ≤ rep.k_val) ↔ ∀ k ∈ groupKeys data_raw ["Age"],
            2 ≤ (groupRows data_raw ["Age"] k).length)
        ∧ (∀ e, e ∈ rep.k_violating ↔
            e.1 ∈ groupKeys data_raw ["Age"]
              ∧ e.2 = (groupRows data_raw ["Age"] e.1).length ∧ e.2 < 2)
        ∧ rep.l_val = lDivVal data_raw ["Age"] SA_COL
        ∧ ((2 ≤ rep.l_val) ↔ ∀ k ∈ groupKeys data_raw ["Age"],
            2 ≤ nunique ((groupRows data_raw ["Age"] k).map (fun r => r SA_COL)))
        ∧ (∀ e, e ∈ rep.l_violating ↔
            e.1 ∈ groupKeys data_raw ["Age"]
              ∧ e.2 = nunique ((groupRows data_raw ["Age"] e.1).map (fun r => r SA_COL))
              ∧ e.2 < 2)
        ∧ rep.t_val = tCloseVal data_raw ["Age"] SA_COL
        ∧ (rep.t_violated = true ↔ 1 / 5 < tCloseVal data_raw ["Age"] SA_COL) :=
  ⟨by decide, List.cons_ne_nil _ _, by decide,
    reporter_report_fields data_raw ["Age"] SA_COL 2 2 (1 / 5) (by decide)
      (List.cons_ne_nil _ _)⟩

/-- A second small dataset: two groups "a" (SA values X, X, Y) and "b"
(SA values X, Y), whose TV distances from the global distribution differ
(1/15 and 1/10 respectively). -/
def mkRow2 (g sa : String) : Row := fun c =>
  if c = "G" then Val.vStr g
  else if c = "SA" then Val.vStr sa
  else Val.vNull

/-- Five records in two groups with distinct per-class TV distances. -/
def dfTwoGroups : DataFrame :=
  [ mkRow2 "a" "X", mkRow2 "a" "X", mkRow2 "a" "Y", mkRow2 "b" "X", mkRow2 "b" "Y" ]

/-- C2 (counterexample): two runs that differ only in the t-closeness
threshold (0.08 vs 0.05).  The sets of classes individually responsible for
the t-closeness failure differ (only class "b" at 0.08; both classes at
0.05), yet the reports produced by `report_violations` are identical — so the
report does not contain (and cannot determine) the list of classes
responsible for a failing t-closeness check, contradicting the claim. -/
theorem reporter_t_list_indistinguishable :
    report_violations dfTwoGroups ["G"] "SA" 1 1 (2 / 25)
      = report_violations dfTwoGroups ["G"] "SA" 1 1 (1 / 20)
    ∧ tViolatingClasses dfTwoGroups ["G"] "SA" (2 / 25)
      ≠ tViolatingClasses dfTwoGroups ["G"] "SA" (1 / 20) := by
  decide
